import Mathlib

/-!
Verification of the template-compiler pipeline excerpt: the i18n parameter
formatting phase (`format_i18n_params.ts`), the emission functions
(`emitView`, `emitTemplateFn`, `emitChildViews`, `emitHostBindingFunction`)
and the phase-pipeline driver (`transform` over the `phases` list).

Modelling conventions:
- JavaScript strings are modelled as Lean `String`; the default comparator of
  `Array.prototype.sort` (conversion to string, then code-unit-wise
  comparison) is modelled by comparing the Unicode code points of the
  characters of the stringified entries.
- Thrown `Error` values are modelled by `Except String`.
- The unbounded recursion of `emitChildViews` over the parent relation is
  modelled with explicit fuel; `none` stands for non-termination.
- A `Map` that is only iterated and extended is modelled as the list of its
  entries in insertion order.
-/

/-- Modelled from the spec: the bit-flags of an i18n parameter value
(element-tag, template-tag, open-tag, close-tag).  The `ir` enum itself is
outside the excerpt, so the bitset is represented as four independent
Booleans, one per flag that the formatting phase tests. -/
structure I18nParamValueFlags where
  elementTag : Bool
  templateTag : Bool
  openTag : Bool
  closeTag : Bool
deriving DecidableEq

/-- Modelled from the spec: one placeholder substitution value of a localized
message: a marker value (a string or a number in the source, both of which
only ever appear serialized into the output text, hence `String` here), the
optional sub-template index, and the flags. -/
structure I18nParamValue where
  value : String
  subTemplateIndex : Option Nat
  flags : I18nParamValueFlags
deriving DecidableEq

/-- Modelled from the spec: the payload of an `o.literal` output-AST node,
which the source constructs from strings, numbers or null. -/
inductive LiteralValue where
  | nullValue
  | ofString (s : String)
  | ofNumber (n : Nat)
deriving DecidableEq

/-- Modelled from the spec: the binary operators of the output AST used by the
excerpt (only the bitwise-and of the render-flag test appears). -/
inductive BinaryOperator where
  | bitwiseAnd
deriving DecidableEq

/-- Modelled from the spec: output-AST expressions, restricted to the node
kinds the excerpt builds (`o.literal`, `o.variable`, `o.BinaryOperatorExpr`). -/
inductive Expression where
  | literal (value : LiteralValue)
  | varExpr (name : String)
  | binary (op : BinaryOperator) (lhs rhs : Expression)
deriving DecidableEq

/-- The overload of `o.literal` applied to a string-or-null value. -/
def literalOfOptString (v : Option String) : Expression :=
  Expression.literal (match v with
    | none => LiteralValue.nullValue
    | some s => LiteralValue.ofString s)

/-- The escape sequence used to indicate message param values. -/
def ESCAPE : String := "�"

/-- Marker used to indicate an element tag. -/
def ELEMENT_MARKER : String := "#"

/-- Marker used to indicate a template tag. -/
def TEMPLATE_MARKER : String := "*"

/-- Marker used to indicate closing of an element or template tag. -/
def TAG_CLOSE_MARKER : String := "/"

/-- Marker used to indicate the sub-template context. -/
def CONTEXT_MARKER : String := ":"

/-- Marker used to indicate the start of a list of values. -/
def LIST_START_MARKER : String := "["

/-- Marker used to indicate the end of a list of values. -/
def LIST_END_MARKER : String := "]"

/-- Delimiter used to separate multiple values in a list. -/
def LIST_DELIMITER : String := "|"

/-- Formats a single `I18nParamValue` into a string
(`formatValue` in `format_i18n_params.ts`). -/
def formatValue (value : I18nParamValue) : String :=
  let tagMarker :=
    if value.flags.elementTag then ELEMENT_MARKER
    else if value.flags.templateTag then TEMPLATE_MARKER
    else ""
  let closeMarker :=
    if tagMarker ≠ "" then (if value.flags.closeTag then TAG_CLOSE_MARKER else "")
    else ""
  let context :=
    match value.subTemplateIndex with
    | none => ""
    | some i => CONTEXT_MARKER ++ toString i
  -- Self-closing tags use a special form that concatenates the start and close tag values.
  if value.flags.openTag && value.flags.closeTag then
    ESCAPE ++ tagMarker ++ value.value ++ context ++ ESCAPE ++
      ESCAPE ++ closeMarker ++ tagMarker ++ value.value ++ context ++ ESCAPE
  else
    ESCAPE ++ closeMarker ++ tagMarker ++ value.value ++ context ++ ESCAPE

/-- Formats an `I18nParamValue[]` into a string, or null for the empty array
(`formatParamValues` in `format_i18n_params.ts`). -/
def formatParamValues (values : List I18nParamValue) : Option String :=
  match values with
  | [] => none
  | _ =>
    let serializedValues := values.map formatValue
    match serializedValues with
    | [s] => some s
    | _ => some (LIST_START_MARKER ++ String.intercalate LIST_DELIMITER serializedValues
        ++ LIST_END_MARKER)

/-- Strict comparison of two JavaScript characters by code unit, modelled on
code points. -/
def charLtb (a b : Char) : Bool := decide (a.toNat < b.toNat)

/-- Lexicographic less-or-equal on character sequences: the order JavaScript
uses to compare two strings. -/
def charsLeb : List Char → List Char → Bool
  | [], _ => true
  | _ :: _, [] => false
  | a :: as, b :: bs =>
    if charLtb a b then true
    else if charLtb b a then false
    else charsLeb as bs

/-- The JavaScript relational operator on strings. -/
def jsStringLeb (a b : String) : Bool := charsLeb a.data b.data

/-- The result of the JavaScript default string conversion of a plain object,
which is what each `I18nParamValue` contributes when a `[key, values]` entry
is stringified by the default sort comparator. -/
def OBJECT_STRING : String := "[object Object]"

/-- The JavaScript default string conversion of a `[key, values]` map entry:
array elements are joined by a comma, the key stays itself, and the nested
value array again joins the default conversion of its elements. -/
def entryToString (entry : String × List I18nParamValue) : String :=
  entry.1 ++ "," ++ String.intercalate "," (entry.2.map (fun _ => OBJECT_STRING))

/-- The comparison performed by the default comparator of
`[...params].sort()`: entries are converted to strings and compared. -/
def entryLeb (p q : String × List I18nParamValue) : Bool :=
  jsStringLeb (entryToString p) (entryToString q)

/-- One step of the stable sort modelling `Array.prototype.sort` with the
default comparator: the new (originally earlier) element is placed in front of
the first element it is less-or-equal to. -/
def insertEntry (a : String × List I18nParamValue) :
    List (String × List I18nParamValue) → List (String × List I18nParamValue)
  | [] => [a]
  | b :: l => if entryLeb a b then a :: b :: l else b :: insertEntry a l

/-- Stable sort of the spread map entries, modelling `[...params].sort()`. -/
def sortEntries : List (String × List I18nParamValue) → List (String × List I18nParamValue)
  | [] => []
  | a :: l => insertEntry a (sortEntries l)

/-- Formats a map of `I18nParamValue[]` values into a map of `Expression`
values (`formatParams` in `format_i18n_params.ts`).  The result `Map` is
built by inserting the surviving sorted entries in order. -/
def formatParams (params : List (String × List I18nParamValue)) :
    List (String × Expression) :=
  (sortEntries params).foldl
    (fun result entry =>
      match formatParamValues entry.2 with
      | none => result
      | some _ => result ++ [(entry.1, literalOfOptString (formatParamValues entry.2))])
    []

/-- The tag marker `formatValue` selects for a value: the element marker if
the element-tag flag is set, else the template marker if the template-tag
flag is set, else empty. -/
def tagMarkerOf (value : I18nParamValue) : String :=
  if value.flags.elementTag then ELEMENT_MARKER
  else if value.flags.templateTag then TEMPLATE_MARKER
  else ""

/-- The close marker `formatValue` selects for a value: the tag-close marker
when a tag marker was selected and the close-tag flag is set, else empty. -/
def closeMarkerOf (value : I18nParamValue) : String :=
  if tagMarkerOf value ≠ "" then (if value.flags.closeTag then TAG_CLOSE_MARKER else "")
  else ""

/-- The sub-template context suffix `formatValue` appends for a value. -/
def contextOf (value : I18nParamValue) : String :=
  match value.subTemplateIndex with
  | none => ""
  | some i => CONTEXT_MARKER ++ toString i

/-- Decides whether the first character sequence is a proper initial segment
of the second (used to state when the default-sort order of map entries can
disagree with plain key order). -/
def properStartB : List Char → List Char → Bool
  | [], [] => false
  | [], _ :: _ => true
  | _ :: _, [] => false
  | a :: as, b :: bs => (a.toNat == b.toNat) && properStartB as bs

/-- The entry order used by `sortEntries`, as a proposition. -/
def entryLE (p q : String × List I18nParamValue) : Prop := entryLeb p q = true

/-- The action of the `formatParams` loop body on a single sorted entry:
entries with an empty value list produce nothing, the rest produce the
key paired with the literal of the serialized values.  This is the
per-entry view of the fold inside `formatParams`. -/
def formatEntry (entry : String × List I18nParamValue) : Option (String × Expression) :=
  (formatParamValues entry.2).map
    (fun _ => (entry.1, literalOfOptString (formatParamValues entry.2)))

mutual
/-- Modelled from the spec: output-AST statements, restricted to the node
kinds the excerpt manipulates: pre-existing opaque statements carried by
statement ops, the render-flag conditional (`o.ifStmt`), and function
declarations (`FunctionExpr.toDeclStmt`). -/
inductive Statement where
  | raw (id : Nat)
  | ifStmt (condition : Expression) (body : List Statement)
  | declStmt (name : String) (fn : FunctionExpr)
/-- Modelled from the spec: the `o.fn` function expression: parameter names,
body statements and an optional function name. -/
inductive FunctionExpr where
  | mk (params : List String) (statements : List Statement) (name : Option String)
end

/-- Name accessor of a function expression. -/
def FunctionExpr.name : FunctionExpr → Option String
  | .mk _ _ n => n

/-- Modelled from the spec: the discriminant of the tagged IR operations; the
spec lists dozens of kinds (element, template, listener, binding, pipe,
conditional, repeater, deferred block, extracted i18n message, raw
statement, ...), of which a representative subset is embedded. -/
inductive OpKind where
  | Statement
  | Element
  | Template
  | Listener
  | Binding
  | Pipe
  | Conditional
  | RepeaterCreate
  | Defer
  | ExtractedMessage
deriving DecidableEq

/-- The reverse mapping `ir.OpKind[op.kind]` from a kind to its enum member
name, used in assertion messages. -/
def opKindName : OpKind → String
  | .Statement => "Statement"
  | .Element => "Element"
  | .Template => "Template"
  | .Listener => "Listener"
  | .Binding => "Binding"
  | .Pipe => "Pipe"
  | .Conditional => "Conditional"
  | .RepeaterCreate => "RepeaterCreate"
  | .Defer => "Defer"
  | .ExtractedMessage => "ExtractedMessage"

/-- The fields of an extracted-message create op that `formatI18nParams`
reads and writes: the root flag, the two param maps, the two formatted
result maps (null before the phase runs) and the postprocessing flag. -/
structure ExtractedMessageOp where
  isRoot : Bool
  params : List (String × List I18nParamValue)
  postprocessingParams : List (String × List I18nParamValue)
  formattedParams : Option (List (String × Expression))
  formattedPostprocessingParams : Option (List (String × Expression))
  needsPostprocessing : Bool

/-- A tagged IR operation.  The kinds whose payload the verified code touches
(`Statement`, `ExtractedMessage`) carry their payload; the remaining modelled
kinds are payload-free representatives. -/
inductive Op where
  | statement (stmt : Statement)
  | extractedMessage (msg : ExtractedMessageOp)
  | element
  | template
  | listener
  | binding
  | pipe
  | conditional
  | repeaterCreate
  | deferOp

/-- The `kind` discriminant of an operation. -/
def Op.kind : Op → OpKind
  | .statement _ => .Statement
  | .extractedMessage _ => .ExtractedMessage
  | .element => .Element
  | .template => .Template
  | .listener => .Listener
  | .binding => .Binding
  | .pipe => .Pipe
  | .conditional => .Conditional
  | .repeaterCreate => .RepeaterCreate
  | .deferOp => .Defer

/-- A compilation unit (one view): cross-reference id, optional function
name, optional parent xref, and the create and update operation lists. -/
structure ViewCompilationUnit where
  xref : Nat
  fnName : Option String
  parent : Option Nat
  create : List Op
  update : List Op

/-- A component (template) compilation job: its root view and the list of all
of its units (the `job.units` iterable, which includes the root). -/
structure ComponentCompilationJob where
  root : ViewCompilationUnit
  units : List ViewCompilationUnit

/-- A host-binding compilation job: a single root unit. -/
structure HostBindingCompilationJob where
  root : ViewCompilationUnit

/-- The processing `formatI18nParams` applies to one create op: root
extracted-message ops get their formatted param maps and their
postprocessing flag; every other op is left untouched.  The flag starts as
the emptiness test of the postprocessing map and the loop over the normal
params raises it on any multi-valued placeholder. -/
def formatI18nParamsOp (op : Op) : Op :=
  match op with
  | .extractedMessage msg =>
    if msg.isRoot then
      .extractedMessage { msg with
        formattedParams := some (formatParams msg.params),
        formattedPostprocessingParams := some (formatParams msg.postprocessingParams),
        needsPostprocessing :=
          msg.params.foldl
            (fun acc entry => if entry.2.length > 1 then true else acc)
            (decide (msg.postprocessingParams.length > 0)) }
    else .extractedMessage msg
  | op => op

/-- The `formatI18nParams` phase: walks every unit of the job and rewrites
the root extracted-message ops of its create list. -/
def formatI18nParams (job : ComponentCompilationJob) : ComponentCompilationJob :=
  { job with
    units := job.units.map (fun unit => { unit with create := unit.create.map formatI18nParamsOp }) }

/-- The loop of `emitView` over one op list: every op must already be a
statement op, otherwise the assertion error is thrown; the `tag` names the
list in the message. -/
def compileStatements (tag : String) : List Op → Except String (List Statement)
  | [] => .ok []
  | op :: rest =>
    match op with
    | .statement s =>
      match compileStatements tag rest with
      | .error e => .error e
      | .ok ss => .ok (s :: ss)
    | other =>
      .error ("AssertionError: expected all " ++ tag ++
        " ops to have been compiled, but got " ++ opKindName other.kind)

/-- Wraps a non-empty statement list into the render-flag guarded conditional
(`maybeGenerateRfBlock`). -/
def maybeGenerateRfBlock (flag : Nat) (statements : List Statement) : List Statement :=
  if statements.length == 0 then []
  else
    [Statement.ifStmt
      (Expression.binary BinaryOperator.bitwiseAnd (Expression.varExpr "rf")
        (Expression.literal (LiteralValue.ofNumber flag)))
      statements]

/-- Emits the template function of one view (`emitView`): asserts the view is
named, asserts every create and update op is a statement op, and assembles
the `rf`/`ctx` function from the two guarded blocks. -/
def emitView (view : ViewCompilationUnit) : Except String FunctionExpr :=
  match view.fnName with
  | none => .error ("AssertionError: view " ++ toString view.xref ++ " is unnamed")
  | some fnName =>
    match compileStatements "create" view.create with
    | .error e => .error e
    | .ok createStatements =>
      match compileStatements "update" view.update with
      | .error e => .error e
      | .ok updateStatements =>
        .ok (FunctionExpr.mk ["rf", "ctx"]
          (maybeGenerateRfBlock 1 createStatements ++ maybeGenerateRfBlock 2 updateStatements)
          (some fnName))

/-- The declaration statement `viewFn.toDeclStmt(viewFn.name!)` pushed into
the constant pool for a child view. -/
def toDeclStmt (fn : FunctionExpr) : Statement :=
  Statement.declStmt (fn.name.getD "") fn

/-- The declaration a unit contributes to the constant pool, when its view
emits successfully. -/
def declOf (unit : ViewCompilationUnit) : Option Statement :=
  (emitView unit).toOption.map toDeclStmt

/-- The iteration of `emitChildViews` over the worklist of candidate units:
every unit whose parent is the given xref first contributes its own subtree
(via `recurse`, the one-level-deeper call), then its own declaration. -/
def emitChildrenGo (recurse : Nat → Option (Except String (List Statement)))
    (px : Nat) : List ViewCompilationUnit → Option (Except String (List Statement))
  | [] => some (.ok [])
  | unit :: rest =>
    if unit.parent = some px then
      match recurse unit.xref with
      | none => none
      | some (.error e) => some (.error e)
      | some (.ok sub) =>
        match emitView unit with
        | .error e => some (.error e)
        | .ok viewFn =>
          match emitChildrenGo recurse px rest with
          | none => none
          | some (.error e) => some (.error e)
          | some (.ok tail) => some (.ok (sub ++ toDeclStmt viewFn :: tail))
    else emitChildrenGo recurse px rest

/-- Fuelled model of `emitChildViews`: returns the list of statements pushed
into the shared constant pool, depth-first, children before their parent.
`none` models the non-termination of the source on a parent relation whose
chains exceed the fuel. -/
def emitChildViewsFuel (units : List ViewCompilationUnit) :
    Nat → Nat → Option (Except String (List Statement))
  | 0, px => if units.any (fun u => u.parent == some px) then none else some (.ok [])
  | fuel + 1, px => emitChildrenGo (emitChildViewsFuel units fuel) px units

/-- Emits all views of a template job (`emitTemplateFn`): the root function
is computed first and returned; the child views are emitted into the shared
constant pool, whose pushed statements are returned alongside. -/
def emitTemplateFn (tpl : ComponentCompilationJob) (fuel : Nat) :
    Option (Except String (FunctionExpr × List Statement)) :=
  match emitView tpl.root with
  | .error e => some (.error e)
  | .ok rootFn =>
    match emitChildViewsFuel tpl.units fuel tpl.root.xref with
    | none => none
    | some (.error e) => some (.error e)
    | some (.ok pool) => some (.ok (rootFn, pool))

/-- Emits the optional host-binding function (`emitHostBindingFunction`):
asserts the root is named, asserts every op is a statement op, returns null
when both statement lists are empty, and otherwise the assembled function. -/
def emitHostBindingFunction (job : HostBindingCompilationJob) :
    Except String (Option FunctionExpr) :=
  match job.root.fnName with
  | none => .error "AssertionError: host binding function is unnamed"
  | some fnName =>
    match compileStatements "create" job.root.create with
    | .error e => .error e
    | .ok createStatements =>
      match compileStatements "update" job.root.update with
      | .error e => .error e
      | .ok updateStatements =>
        if createStatements.length == 0 && updateStatements.length == 0 then .ok none
        else
          .ok (some (FunctionExpr.mk ["rf", "ctx"]
            (maybeGenerateRfBlock 1 createStatements ++ maybeGenerateRfBlock 2 updateStatements)
            (some fnName)))

/-- The descendant relation induced by the parent xrefs: a unit is a
descendant of an xref if it is a child of that xref, or a descendant of a
child of that xref. -/
inductive Desc (units : List ViewCompilationUnit) : ViewCompilationUnit → Nat → Prop where
  | child (w : ViewCompilationUnit) (px : Nat) :
      w ∈ units → w.parent = some px → Desc units w px
  | nest (w c : ViewCompilationUnit) (px : Nat) :
      c ∈ units → c.parent = some px → Desc units w c.xref → Desc units w px

/-- The kind tag of a compilation job and of a phase
(`CompilationJobKind`). -/
inductive CompilationJobKind where
  | Tmpl
  | Host
  | Both
deriving DecidableEq

/-- The identities of the registered phase functions, in the order of their
imports; each stands for the TypeScript function of the same name. -/
inductive PhaseFn where
  | removeContentSelectors
  | parseHostStyleProperties
  | emitNamespaceChanges
  | specializeStyleBindings
  | specializeBindings
  | propagateI18nBlocks
  | wrapI18nIcus
  | extractAttributes
  | parseExtractedStyles
  | removeEmptyBindings
  | collapseSingletonInterpolations
  | orderOps
  | generateConditionalExpressions
  | createPipes
  | configureDeferInstructions
  | extractI18nText
  | extractI18nICUs
  | applyI18nExpressions
  | createVariadicPipes
  | generatePureLiteralStructures
  | generateProjectionDefs
  | generateVariables
  | saveAndRestoreView
  | deleteAnyCasts
  | resolveDollarEvent
  | generateRepeaterDerivedVars
  | generateTrackVariables
  | resolveNames
  | resolveDeferTargetNames
  | optimizeTrackFns
  | resolveContexts
  | resolveSanitizers
  | liftLocalRefs
  | generateNullishCoalesceExpressions
  | expandSafeReads
  | generateTemporaryVariables
  | allocateSlots
  | extractI18nMessages
  | resolveI18nElementPlaceholders
  | resolveI18nExpressionPlaceholders
  | propogateI18nPlaceholders
  | formatI18nParams
  | generateTrackFns
  | collectI18nConsts
  | collectConstExpressions
  | collectElementConsts
  | assignI18nSlotDependencies
  | countVariables
  | generateAdvance
  | optimizeVariables
  | nameFunctionsAndVariables
  | mergeNextContextExpressions
  | generateNgContainerOps
  | collapseEmptyInstructions
  | disableBindings
  | extractPureFunctions
  | reify
  | chain
deriving DecidableEq

/-- A registered phase: its applicability tag and its function. -/
structure Phase where
  kind : CompilationJobKind
  fn : PhaseFn
deriving DecidableEq

/-- The statically fixed phase registration list, transcribed entry by entry
from the `phases` constant. -/
def phases : List Phase := [
  ⟨.Tmpl, .removeContentSelectors⟩,
  ⟨.Host, .parseHostStyleProperties⟩,
  ⟨.Tmpl, .emitNamespaceChanges⟩,
  ⟨.Both, .specializeStyleBindings⟩,
  ⟨.Both, .specializeBindings⟩,
  ⟨.Tmpl, .propagateI18nBlocks⟩,
  ⟨.Tmpl, .wrapI18nIcus⟩,
  ⟨.Both, .extractAttributes⟩,
  ⟨.Both, .parseExtractedStyles⟩,
  ⟨.Tmpl, .removeEmptyBindings⟩,
  ⟨.Both, .collapseSingletonInterpolations⟩,
  ⟨.Both, .orderOps⟩,
  ⟨.Tmpl, .generateConditionalExpressions⟩,
  ⟨.Tmpl, .createPipes⟩,
  ⟨.Tmpl, .configureDeferInstructions⟩,
  ⟨.Tmpl, .extractI18nText⟩,
  ⟨.Tmpl, .extractI18nICUs⟩,
  ⟨.Tmpl, .applyI18nExpressions⟩,
  ⟨.Tmpl, .createVariadicPipes⟩,
  ⟨.Both, .generatePureLiteralStructures⟩,
  ⟨.Tmpl, .generateProjectionDefs⟩,
  ⟨.Tmpl, .generateVariables⟩,
  ⟨.Tmpl, .saveAndRestoreView⟩,
  ⟨.Tmpl, .deleteAnyCasts⟩,
  ⟨.Both, .resolveDollarEvent⟩,
  ⟨.Tmpl, .generateRepeaterDerivedVars⟩,
  ⟨.Tmpl, .generateTrackVariables⟩,
  ⟨.Both, .resolveNames⟩,
  ⟨.Tmpl, .resolveDeferTargetNames⟩,
  ⟨.Tmpl, .optimizeTrackFns⟩,
  ⟨.Both, .resolveContexts⟩,
  ⟨.Tmpl, .resolveSanitizers⟩,
  ⟨.Tmpl, .liftLocalRefs⟩,
  ⟨.Both, .generateNullishCoalesceExpressions⟩,
  ⟨.Both, .expandSafeReads⟩,
  ⟨.Both, .generateTemporaryVariables⟩,
  ⟨.Tmpl, .allocateSlots⟩,
  ⟨.Tmpl, .extractI18nMessages⟩,
  ⟨.Tmpl, .resolveI18nElementPlaceholders⟩,
  ⟨.Tmpl, .resolveI18nExpressionPlaceholders⟩,
  ⟨.Tmpl, .propogateI18nPlaceholders⟩,
  ⟨.Tmpl, .formatI18nParams⟩,
  ⟨.Tmpl, .generateTrackFns⟩,
  ⟨.Tmpl, .collectI18nConsts⟩,
  ⟨.Tmpl, .collectConstExpressions⟩,
  ⟨.Both, .collectElementConsts⟩,
  ⟨.Tmpl, .assignI18nSlotDependencies⟩,
  ⟨.Both, .countVariables⟩,
  ⟨.Tmpl, .generateAdvance⟩,
  ⟨.Both, .optimizeVariables⟩,
  ⟨.Both, .nameFunctionsAndVariables⟩,
  ⟨.Tmpl, .mergeNextContextExpressions⟩,
  ⟨.Tmpl, .generateNgContainerOps⟩,
  ⟨.Tmpl, .collapseEmptyInstructions⟩,
  ⟨.Tmpl, .disableBindings⟩,
  ⟨.Both, .extractPureFunctions⟩,
  ⟨.Both, .reify⟩,
  ⟨.Both, .chain⟩]

/-- The pipeline driver `transform`: since every phase mutates the job in
place and returns nothing, the observable control flow of the driver is the
sequence of phase functions invoked.  The selection condition reads only the
statically registered `phase.kind` and the `kind` argument, never any data of
the job, so the invocation sequence is a function of the kind tag alone. -/
def transform (kind : CompilationJobKind) : List PhaseFn :=
  phases.foldl
    (fun calls phase =>
      if phase.kind = kind ∨ phase.kind = CompilationJobKind.Both
      then calls ++ [phase.fn]
      else calls)
    []

/-- A sample i18n parameter value with no flags, used as concrete input. -/
def sampleValue : I18nParamValue := ⟨"x", none, ⟨false, false, false, false⟩⟩

/-- A concrete self-closing i18n value: an element tag that both opens and
closes, inside sub-template 2. -/
def scValue : I18nParamValue := ⟨"5", some 2, ⟨true, false, true, true⟩⟩

/-- A concrete value carrying only the close-tag flag. -/
def closeOnlyValue : I18nParamValue := ⟨"5", none, ⟨false, false, false, true⟩⟩

/-- A concrete param map whose keys are prefix-related ("A" is a proper
initial segment of "A!"). -/
def cexParams : List (String × List I18nParamValue) :=
  [("A", [sampleValue]), ("A!", [sampleValue])]

/-- A concrete param map exercising the three value-list shapes. -/
def params3 : List (String × List I18nParamValue) :=
  [("a", [sampleValue]), ("b", [sampleValue, sampleValue]), ("c", [])]

/-- A concrete param map with incomparable keys. -/
def params4 : List (String × List I18nParamValue) :=
  [("b", [sampleValue]), ("a", [sampleValue])]

/-- A concrete view with no function name and fully empty op lists. -/
def unnamedView : ViewCompilationUnit := ⟨0, none, none, [], []⟩

/-- A concrete named view whose create list holds a non-statement op. -/
def badView : ViewCompilationUnit := ⟨1, some "f", none, [Op.element], []⟩

/-- A concrete named, fully lowered view. -/
def goodView : ViewCompilationUnit :=
  ⟨2, some "g", none, [Op.statement (Statement.raw 0)], [Op.statement (Statement.raw 1)]⟩

/-- A host-binding job with an unnamed root and empty op lists. -/
def hostJobA : HostBindingCompilationJob := ⟨⟨0, none, none, [], []⟩⟩

/-- A host-binding job with a named root and a non-statement create op. -/
def hostJobB : HostBindingCompilationJob := ⟨⟨1, some "h", none, [Op.element], []⟩⟩

/-- A host-binding job with a named root and empty op lists. -/
def hostJobC : HostBindingCompilationJob := ⟨⟨2, some "c", none, [], []⟩⟩

/-- A host-binding job with a named root and one lowered create op. -/
def hostJobD : HostBindingCompilationJob :=
  ⟨⟨3, some "d", none, [Op.statement (Statement.raw 0)], []⟩⟩

/-- A host-binding job with an unnamed root, used as concrete input. -/
def hostJobE : HostBindingCompilationJob := ⟨⟨4, none, none, [], []⟩⟩

/-- The root view of the concrete three-view template job. -/
def rootW : ViewCompilationUnit := ⟨0, some "root", none, [], []⟩

/-- A child view of the root of the concrete template job. -/
def uW : ViewCompilationUnit := ⟨1, some "u", some 0, [], []⟩

/-- A grandchild view (child of `uW`) of the concrete template job. -/
def vW : ViewCompilationUnit := ⟨2, some "v", some 1, [], []⟩

/-- A concrete template job with a three-view chain root, child, grandchild. -/
def tplW : ComponentCompilationJob := ⟨rootW, [rootW, uW, vW]⟩

/-- The root function emitted for `tplW`. -/
def rootFnW : FunctionExpr := FunctionExpr.mk ["rf", "ctx"] [] (some "root")

/-- The constant-pool statements emitted for `tplW`. -/
def poolW : List Statement :=
  [toDeclStmt (FunctionExpr.mk ["rf", "ctx"] [] (some "v")),
   toDeclStmt (FunctionExpr.mk ["rf", "ctx"] [] (some "u"))]

/-- A concrete root extracted-message op with one two-valued placeholder. -/
def msgW6 : ExtractedMessageOp :=
  ⟨true, [("p", [sampleValue, sampleValue])], [], none, none, false⟩

/-- A concrete template job holding `msgW6` in the create list of a unit. -/
def jobW6 : ComponentCompilationJob :=
  ⟨rootW, [⟨5, some "w", none, [Op.extractedMessage msgW6], []⟩]⟩

theorem stringAppend_assoc (a b c : String) : (a ++ b) ++ c = a ++ (b ++ c) := by
  apply String.ext
  simp [String.data_append]

theorem stringAppend_empty (s : String) : s ++ "" = s := by
  apply String.ext
  simp [String.data_append]

theorem stringEmpty_append (s : String) : "" ++ s = s := by
  apply String.ext
  simp [String.data_append]

/-- C5: a value flagged both open-tag and close-tag serializes as the
open form (escape, tag marker, raw value, optional sub-template suffix,
escape) immediately followed by the close form (escape, close marker, tag
marker, raw value, optional sub-template suffix, escape), the two
escape-wrapped segments concatenated rather than a single segment. -/
theorem formatValue_self_closing (value : I18nParamValue)
    (ho : value.flags.openTag = true) (hc : value.flags.closeTag = true) :
    formatValue value =
      (ESCAPE ++ tagMarkerOf value ++ value.value ++ contextOf value ++ ESCAPE) ++
      (ESCAPE ++ closeMarkerOf value ++ tagMarkerOf value ++ value.value ++
        contextOf value ++ ESCAPE) := by
  unfold formatValue closeMarkerOf contextOf
  rw [ho, hc]
  simp [stringAppend_assoc, tagMarkerOf]

theorem formatValue_self_closing_witness :
    formatValue scValue =
      (ESCAPE ++ tagMarkerOf scValue ++ scValue.value ++ contextOf scValue ++ ESCAPE) ++
      (ESCAPE ++ closeMarkerOf scValue ++ tagMarkerOf scValue ++ scValue.value ++
        contextOf scValue ++ ESCAPE) :=
  formatValue_self_closing scValue rfl rfl

/-- C9: a value carrying the close-tag flag but neither the element-tag nor
the template-tag flag (and not the open-tag flag) serializes with no
close marker at all: just the escape character, the raw value, the optional
sub-template suffix and the trailing escape character. -/
theorem formatValue_close_without_tag (value : I18nParamValue)
    (hc : value.flags.closeTag = true) (he : value.flags.elementTag = false)
    (ht : value.flags.templateTag = false) (ho : value.flags.openTag = false) :
    formatValue value = ESCAPE ++ value.value ++ contextOf value ++ ESCAPE := by
  unfold formatValue contextOf
  rw [ho, he, ht]
  simp [stringAppend_assoc, stringEmpty_append]

theorem formatValue_close_without_tag_witness :
    formatValue closeOnlyValue =
      ESCAPE ++ closeOnlyValue.value ++ contextOf closeOnlyValue ++ ESCAPE :=
  formatValue_close_without_tag closeOnlyValue rfl rfl rfl rfl

theorem compileStatements_ok (tag : String) (ops : List Op)
    (h : ∀ op ∈ ops, op.kind = OpKind.Statement) :
    ∃ ss, compileStatements tag ops = .ok ss ∧ ss.length = ops.length := by
  induction ops with
  | nil => exact ⟨[], rfl, rfl⟩
  | cons op rest ih =>
    have hop : op.kind = OpKind.Statement := h op (List.mem_cons_self op rest)
    obtain ⟨ss, hss, hlen⟩ := ih (fun o ho => h o (List.mem_cons_of_mem op ho))
    cases op with
    | statement s =>
      refine ⟨s :: ss, ?_, by simp [hlen]⟩
      simp [compileStatements, hss]
    | extractedMessage m => simp [Op.kind] at hop
    | element => simp [Op.kind] at hop
    | template => simp [Op.kind] at hop
    | listener => simp [Op.kind] at hop
    | binding => simp [Op.kind] at hop
    | pipe => simp [Op.kind] at hop
    | conditional => simp [Op.kind] at hop
    | repeaterCreate => simp [Op.kind] at hop
    | deferOp => simp [Op.kind] at hop

theorem compileStatements_error (tag : String) (ops : List Op) (op : Op)
    (hm : op ∈ ops) (hk : op.kind ≠ OpKind.Statement) :
    ∃ e, compileStatements tag ops = .error e := by
  induction ops with
  | nil => cases hm
  | cons hd rest ih =>
    cases hd with
    | statement s =>
      rcases List.mem_cons.mp hm with heq | htail
      · subst heq; simp [Op.kind] at hk
      · obtain ⟨e, he⟩ := ih htail
        exact ⟨e, by simp [compileStatements, he]⟩
    | extractedMessage m => exact ⟨_, rfl⟩
    | element => exact ⟨_, rfl⟩
    | template => exact ⟨_, rfl⟩
    | listener => exact ⟨_, rfl⟩
    | binding => exact ⟨_, rfl⟩
    | pipe => exact ⟨_, rfl⟩
    | conditional => exact ⟨_, rfl⟩
    | repeaterCreate => exact ⟨_, rfl⟩
    | deferOp => exact ⟨_, rfl⟩

/-- C1 counterexample: a view whose create and update lists contain only
statement-kind operations (vacuously, both are empty) on which emission
nevertheless fails, because the view is unnamed.  This falsifies the claim
that emission on a unit with only statement-kind ops never fails. -/
theorem emitView_fails_though_fully_lowered :
    (unnamedView.create ++ unnamedView.update).all
      (fun op => op.kind == OpKind.Statement) = true ∧
    emitView unnamedView = .error "AssertionError: view 0 is unnamed" :=
  ⟨rfl, rfl⟩

/-- C1 (amended): emission fails fatally whenever some create or update op
has a kind other than the statement kind; and on a unit that is named and
whose create and update lists contain only statement-kind ops, emission
never fails. -/
theorem emitView_failure_characterization (view : ViewCompilationUnit) :
    ((∃ op ∈ view.create ++ view.update, op.kind ≠ OpKind.Statement) →
      ∃ e, emitView view = .error e) ∧
    (view.fnName ≠ none →
      (∀ op ∈ view.create ++ view.update, op.kind = OpKind.Statement) →
      ∃ f, emitView view = .ok f) := by
  constructor
  · rintro ⟨op, hm, hk⟩
    cases hname : view.fnName with
    | none =>
      exact ⟨"AssertionError: view " ++ toString view.xref ++ " is unnamed",
        by simp [emitView, hname]⟩
    | some n =>
      rcases List.mem_append.mp hm with hmc | hmu
      · obtain ⟨e, he⟩ := compileStatements_error "create" view.create op hmc hk
        exact ⟨e, by simp [emitView, hname, he]⟩
      · cases hcr : compileStatements "create" view.create with
        | error e => exact ⟨e, by simp [emitView, hname, hcr]⟩
        | ok cs =>
          obtain ⟨e, he⟩ := compileStatements_error "update" view.update op hmu hk
          exact ⟨e, by simp [emitView, hname, hcr, he]⟩
  · intro hname hall
    cases hname2 : view.fnName with
    | none => exact absurd hname2 hname
    | some n =>
      obtain ⟨cs, hcs, _⟩ := compileStatements_ok "create" view.create
        (fun op ho => hall op (List.mem_append.mpr (Or.inl ho)))
      obtain ⟨us, hus, _⟩ := compileStatements_ok "update" view.update
        (fun op ho => hall op (List.mem_append.mpr (Or.inr ho)))
      exact ⟨FunctionExpr.mk ["rf", "ctx"]
          (maybeGenerateRfBlock 1 cs ++ maybeGenerateRfBlock 2 us) (some n),
        by simp [emitView, hname2, hcs, hus]⟩

theorem emitView_failure_characterization_witness :
    (∃ e, emitView badView = .error e) ∧ (∃ f, emitView goodView = .ok f) :=
  ⟨(emitView_failure_characterization badView).1
      ⟨Op.element, by simp [badView], by simp [Op.kind]⟩,
    (emitView_failure_characterization goodView).2 (by simp [goodView])
      (by decide)⟩

/-- C7 counterexample: a host-binding job with both op lists empty whose
emission throws instead of returning null (its root is unnamed), and a job
with a non-empty create list whose emission throws instead of returning a
function expression (the op is not statement-kind).  Both falsify the claim
that the result is null exactly on empty lists and a function otherwise. -/
theorem emitHostBindingFunction_not_null_iff_empty :
    emitHostBindingFunction hostJobA =
      .error "AssertionError: host binding function is unnamed" ∧
    emitHostBindingFunction hostJobB =
      .error
        "AssertionError: expected all create ops to have been compiled, but got Element" :=
  ⟨rfl, rfl⟩

/-- C7 (amended): for a host-binding job whose root is named and whose
create and update lists contain only statement-kind ops, emission returns
null exactly when both lists are empty, and returns a function expression
when at least one list is non-empty.  (An unnamed root or a non-lowered op
makes emission throw instead.) -/
theorem emitHostBindingFunction_null_characterization (job : HostBindingCompilationJob)
    (hname : job.root.fnName ≠ none)
    (hops : ∀ op ∈ job.root.create ++ job.root.update, op.kind = OpKind.Statement) :
    (emitHostBindingFunction job = .ok none ↔
      (job.root.create = [] ∧ job.root.update = [])) ∧
    ((job.root.create ≠ [] ∨ job.root.update ≠ []) →
      ∃ f, emitHostBindingFunction job = .ok (some f)) := by
  cases hname2 : job.root.fnName with
  | none => exact absurd hname2 hname
  | some n =>
    obtain ⟨cs, hcs, hcslen⟩ := compileStatements_ok "create" job.root.create
      (fun op ho => hops op (List.mem_append.mpr (Or.inl ho)))
    obtain ⟨us, hus, huslen⟩ := compileStatements_ok "update" job.root.update
      (fun op ho => hops op (List.mem_append.mpr (Or.inr ho)))
    have hval : emitHostBindingFunction job =
        (if (cs.length == 0 && us.length == 0) = true then Except.ok none
          else Except.ok (some (FunctionExpr.mk ["rf", "ctx"]
            (maybeGenerateRfBlock 1 cs ++ maybeGenerateRfBlock 2 us) (some n)))) := by
      simp only [emitHostBindingFunction, hname2, hcs, hus]
    by_cases hempty : (cs.length == 0 && us.length == 0) = true
    · have h1 : cs.length = 0 ∧ us.length = 0 := by simpa using hempty
      have hc0 : job.root.create = [] := by
        apply List.length_eq_zero.mp; rw [← hcslen]; exact h1.1
      have hu0 : job.root.update = [] := by
        apply List.length_eq_zero.mp; rw [← huslen]; exact h1.2
      refine ⟨⟨fun _ => ⟨hc0, hu0⟩, fun _ => ?_⟩, fun hne => ?_⟩
      · rw [hval, if_pos hempty]
      · rcases hne with h | h
        · exact absurd hc0 h
        · exact absurd hu0 h
    · have hres : emitHostBindingFunction job = Except.ok (some (FunctionExpr.mk ["rf", "ctx"]
          (maybeGenerateRfBlock 1 cs ++ maybeGenerateRfBlock 2 us) (some n))) := by
        rw [hval, if_neg hempty]
      have hnonempty : ¬(job.root.create = [] ∧ job.root.update = []) := by
        rintro ⟨hc0, hu0⟩
        apply hempty
        have h1 : cs.length = 0 := by rw [hcslen, hc0]; rfl
        have h2 : us.length = 0 := by rw [huslen, hu0]; rfl
        simp [h1, h2]
      refine ⟨⟨fun hok => ?_, fun hboth => absurd hboth hnonempty⟩, fun _ => ⟨_, hres⟩⟩
      rw [hres] at hok
      simp at hok

theorem emitHostBindingFunction_null_characterization_witness :
    emitHostBindingFunction hostJobC = .ok none ∧
    (∃ f, emitHostBindingFunction hostJobD = .ok (some f)) :=
  ⟨(emitHostBindingFunction_null_characterization hostJobC (by simp [hostJobC])
      (by decide)).1.mpr ⟨rfl, rfl⟩,
    (emitHostBindingFunction_null_characterization hostJobD (by simp [hostJobD])
      (by decide)).2 (Or.inl (by simp [hostJobD]))⟩

/-- C10: on a host-binding job whose root has a null function name, emission
fails with the unnamed assertion error even when both op lists are empty:
the name assertion is checked before the empty-output null return. -/
theorem emitHostBindingFunction_unnamed_raises (job : HostBindingCompilationJob)
    (hname : job.root.fnName = none)
    (hc : job.root.create = []) (hu : job.root.update = []) :
    emitHostBindingFunction job =
      .error "AssertionError: host binding function is unnamed" := by
  simp [emitHostBindingFunction, hname]

theorem emitHostBindingFunction_unnamed_raises_witness :
    emitHostBindingFunction hostJobE =
      .error "AssertionError: host binding function is unnamed" :=
  emitHostBindingFunction_unnamed_raises hostJobE rfl rfl rfl

/-- C2: for each of the two job kinds, the driver invokes exactly the
registered phases whose applicability tag equals the job kind or is Both, in
the statically fixed registration order (the filtered registration list
itself), and each such phase exactly once; phases with a non-matching tag
are never invoked.  The selection depends only on the static tags and the
kind argument, so no runtime data can skip or reorder phases. -/
theorem transform_selects_matching_phases_in_order :
    (transform CompilationJobKind.Tmpl =
        (phases.filter (fun p => p.kind == CompilationJobKind.Tmpl
          || p.kind == CompilationJobKind.Both)).map Phase.fn ∧
      ∀ p ∈ phases,
        ((p.kind = CompilationJobKind.Tmpl ∨ p.kind = CompilationJobKind.Both) →
          (transform CompilationJobKind.Tmpl).count p.fn = 1) ∧
        (¬(p.kind = CompilationJobKind.Tmpl ∨ p.kind = CompilationJobKind.Both) →
          (transform CompilationJobKind.Tmpl).count p.fn = 0)) ∧
    (transform CompilationJobKind.Host =
        (phases.filter (fun p => p.kind == CompilationJobKind.Host
          || p.kind == CompilationJobKind.Both)).map Phase.fn ∧
      ∀ p ∈ phases,
        ((p.kind = CompilationJobKind.Host ∨ p.kind = CompilationJobKind.Both) →
          (transform CompilationJobKind.Host).count p.fn = 1) ∧
        (¬(p.kind = CompilationJobKind.Host ∨ p.kind = CompilationJobKind.Both) →
          (transform CompilationJobKind.Host).count p.fn = 0)) := by
  decide

theorem transform_selects_matching_phases_in_order_witness :
    (transform CompilationJobKind.Tmpl).count PhaseFn.removeContentSelectors = 1 ∧
    (transform CompilationJobKind.Host).count PhaseFn.removeContentSelectors = 0 :=
  ⟨(transform_selects_matching_phases_in_order.1.2 ⟨CompilationJobKind.Tmpl,
        PhaseFn.removeContentSelectors⟩ (by decide)).1 (Or.inl rfl),
    (transform_selects_matching_phases_in_order.2.2 ⟨CompilationJobKind.Tmpl,
        PhaseFn.removeContentSelectors⟩ (by decide)).2 (by decide)⟩

theorem charsLeb_total : ∀ (a b : List Char), charsLeb a b = true ∨ charsLeb b a = true := by
  intro a
  induction a with
  | nil => intro b; exact Or.inl rfl
  | cons x xs ih =>
    intro b
    cases b with
    | nil => exact Or.inr rfl
    | cons y ys =>
      by_cases h1 : x.toNat < y.toNat
      · left; simp [charsLeb, charLtb, h1]
      · by_cases h2 : y.toNat < x.toNat
        · right; simp [charsLeb, charLtb, h2]
        · rcases ih ys with h | h
          · left; simp [charsLeb, charLtb, h1, h2, h]
          · right; simp [charsLeb, charLtb, h1, h2, h]

theorem charsLeb_trans : ∀ (a b c : List Char),
    charsLeb a b = true → charsLeb b c = true → charsLeb a c = true := by
  intro a
  induction a with
  | nil => intro b c h1 h2; rfl
  | cons x xs ih =>
    intro b c h1 h2
    cases b with
    | nil => simp [charsLeb] at h1
    | cons y ys =>
      cases c with
      | nil => simp [charsLeb] at h2
      | cons z zs =>
        simp only [charsLeb, charLtb, decide_eq_true_eq] at h1 h2 ⊢
        split_ifs at h1 h2 ⊢ <;>
          first
            | rfl
            | exact absurd h1 Bool.false_ne_true
            | exact absurd h2 Bool.false_ne_true
            | exact ih ys zs h1 h2
            | omega

theorem entryLeb_total (p q : String × List I18nParamValue) :
    entryLeb p q = true ∨ entryLeb q p = true :=
  charsLeb_total _ _

theorem insertEntry_perm (a : String × List I18nParamValue)
    (l : List (String × List I18nParamValue)) :
    List.Perm (insertEntry a l) (a :: l) := by
  induction l with
  | nil => exact List.Perm.refl _
  | cons b t ih =>
    simp only [insertEntry]
    split
    · exact List.Perm.refl _
    · exact (List.Perm.cons b ih).trans (List.Perm.swap a b t)

theorem sortEntries_perm (l : List (String × List I18nParamValue)) :
    List.Perm (sortEntries l) l := by
  induction l with
  | nil => exact List.Perm.refl _
  | cons a t ih => exact (insertEntry_perm a (sortEntries t)).trans (List.Perm.cons a ih)

theorem insertEntry_pairwise (a : String × List I18nParamValue)
    (l : List (String × List I18nParamValue)) (h : List.Pairwise entryLE l) :
    List.Pairwise entryLE (insertEntry a l) := by
  induction l with
  | nil => simp [insertEntry, entryLE]
  | cons b t ih =>
    rcases List.pairwise_cons.mp h with ⟨hb, ht⟩
    simp only [insertEntry]
    by_cases hab : entryLeb a b = true
    · rw [if_pos hab]
      apply List.pairwise_cons.mpr
      refine ⟨?_, h⟩
      intro x hx
      rcases List.mem_cons.mp hx with rfl | hxt
      · exact hab
      · exact charsLeb_trans _ _ _ hab (hb x hxt)
    · rw [if_neg hab]
      apply List.pairwise_cons.mpr
      refine ⟨?_, ih ht⟩
      intro x hx
      have hx2 : x = a ∨ x ∈ t := by
        simpa using (insertEntry_perm a t).mem_iff.mp hx
      rcases hx2 with rfl | hxt
      · rcases entryLeb_total x b with h1 | h1
        · exact absurd h1 hab
        · exact h1
      · exact hb x hxt

theorem sortEntries_sorted (l : List (String × List I18nParamValue)) :
    List.Pairwise entryLE (sortEntries l) := by
  induction l with
  | nil => exact List.Pairwise.nil
  | cons a t ih => exact insertEntry_pairwise a (sortEntries t) ih

theorem formatParams_foldl (l : List (String × List I18nParamValue))
    (acc : List (String × Expression)) :
    l.foldl (fun result entry =>
      match formatParamValues entry.2 with
      | none => result
      | some _ => result ++ [(entry.1, literalOfOptString (formatParamValues entry.2))]) acc
    = acc ++ l.filterMap formatEntry := by
  induction l generalizing acc with
  | nil => simp
  | cons e t ih =>
    simp only [List.foldl_cons, List.filterMap_cons]
    cases hfe : formatParamValues e.2 with
    | none => simp [hfe, formatEntry, ih]
    | some s => simp [hfe, formatEntry, ih]

theorem formatParams_eq (params : List (String × List I18nParamValue)) :
    formatParams params = (sortEntries params).filterMap formatEntry := by
  unfold formatParams
  rw [formatParams_foldl]
  simp

theorem keyUnique {β : Type} (l : List (String × β)) (hnd : (l.map Prod.fst).Nodup)
    (k : String) (a b : β) (ha : (k, a) ∈ l) (hb : (k, b) ∈ l) : a = b := by
  induction l with
  | nil => cases ha
  | cons p t ih =>
    simp only [List.map_cons] at hnd
    rcases List.nodup_cons.mp hnd with ⟨hnotin, hnd2⟩
    rcases List.mem_cons.mp ha with ha1 | hat
    · rcases List.mem_cons.mp hb with hb1 | hbt
      · rw [← ha1] at hb1
        exact ((Prod.ext_iff.mp hb1).2).symm
      · rw [← ha1] at hnotin
        exact absurd (List.mem_map_of_mem Prod.fst hbt) hnotin
    · rcases List.mem_cons.mp hb with hb1 | hbt
      · rw [← hb1] at hnotin
        exact absurd (List.mem_map_of_mem Prod.fst hat) hnotin
      · exact ih hnd2 hat hbt

/-- C3: in a param map with distinct placeholder keys, a key with exactly one
value maps to the literal of that value's serialized form; a key with two or
more values maps to the literal of the serialized values joined by the list
delimiter and wrapped in the list markers; and a key with an empty value
list is omitted from the formatted result entirely. -/
theorem formatParams_value_shapes (params : List (String × List I18nParamValue))
    (k : String) (vs : List I18nParamValue)
    (hnd : (params.map Prod.fst).Nodup) (hmem : (k, vs) ∈ params) :
    (∀ v, vs = [v] →
      (k, Expression.literal (LiteralValue.ofString (formatValue v))) ∈ formatParams params) ∧
    (∀ v1 v2 rest, vs = v1 :: v2 :: rest →
      (k, Expression.literal (LiteralValue.ofString
        (LIST_START_MARKER ++ String.intercalate LIST_DELIMITER (vs.map formatValue)
          ++ LIST_END_MARKER))) ∈ formatParams params) ∧
    (vs = [] → ∀ e, (k, e) ∉ formatParams params) := by
  have hmem2 : (k, vs) ∈ sortEntries params := (sortEntries_perm params).mem_iff.mpr hmem
  rw [formatParams_eq]
  refine ⟨?_, ?_, ?_⟩
  · rintro v rfl
    apply List.mem_filterMap.mpr
    exact ⟨(k, [v]), hmem2, rfl⟩
  · rintro v1 v2 rest rfl
    apply List.mem_filterMap.mpr
    exact ⟨(k, v1 :: v2 :: rest), hmem2, rfl⟩
  · rintro rfl e he
    rcases List.mem_filterMap.mp he with ⟨⟨k2, vs2⟩, hmem3, heq⟩
    have hk : k2 = k := by
      rcases Option.map_eq_some'.mp heq with ⟨s, _, hpair⟩
      exact congrArg Prod.fst hpair
    subst hk
    have hvs2 : vs2 = [] := by
      apply keyUnique params hnd k2 vs2 []
      · exact (sortEntries_perm params).mem_iff.mp hmem3
      · exact hmem
    subst hvs2
    simp [formatEntry, formatParamValues] at heq

theorem formatParams_value_shapes_witness :
    ("a", Expression.literal (LiteralValue.ofString (formatValue sampleValue)))
      ∈ formatParams params3 ∧
    ("b", Expression.literal (LiteralValue.ofString
      (LIST_START_MARKER ++ String.intercalate LIST_DELIMITER
        ([sampleValue, sampleValue].map formatValue) ++ LIST_END_MARKER)))
      ∈ formatParams params3 ∧
    (∀ e, ("c", e) ∉ formatParams params3) :=
  ⟨(formatParams_value_shapes params3 "a" [sampleValue] (by decide)
      (List.Mem.head _)).1 sampleValue rfl,
    (formatParams_value_shapes params3 "b" [sampleValue, sampleValue] (by decide)
      (List.Mem.tail _ (List.Mem.head _))).2.1 sampleValue sampleValue [] rfl,
    (formatParams_value_shapes params3 "c" [] (by decide)
      (List.Mem.tail _ (List.Mem.tail _ (List.Mem.head _)))).2.2 rfl⟩

/-- C4 counterexample: with placeholder keys "A" and "A!" (the first a proper
initial segment of the second), `formatParams` enumerates "A!" before "A",
although plain key order sorts "A" strictly before "A!": the default sort
comparator stringifies whole `[key, values]` entries, so the comma that
follows the shorter key is compared against the next key character. -/
theorem formatParams_not_key_sorted :
    (formatParams cexParams).map Prod.fst = ["A!", "A"] ∧
    jsStringLeb "A" "A!" = true ∧ ("A" : String) ≠ "A!" ∧
    jsStringLeb "A!" "A" = false := by
  refine ⟨rfl, rfl, ?_, rfl⟩
  decide

theorem charsLeb_append_congr : ∀ (a b x y : List Char),
    properStartB a b = false → properStartB b a = false → a ≠ b →
    charsLeb (a ++ x) (b ++ y) = charsLeb a b := by
  intro a
  induction a with
  | nil =>
    intro b x y h1 h2 hne
    cases b with
    | nil => exact absurd rfl hne
    | cons z zs => simp [properStartB] at h1
  | cons c cs ih =>
    intro b x y h1 h2 hne
    cases b with
    | nil => simp [properStartB] at h2
    | cons d ds =>
      simp only [List.cons_append, charsLeb]
      by_cases hcd : charLtb c d = true
      · simp [hcd]
      · by_cases hdc : charLtb d c = true
        · simp [hcd, hdc]
        · have hnat : c.toNat = d.toNat := by
            simp only [charLtb, decide_eq_true_eq] at hcd hdc
            omega
          have hchar : c = d := by
            apply Char.ext
            exact UInt32.toNat.inj hnat
          subst hchar
          have h1a : properStartB cs ds = false := by simpa [properStartB] using h1
          have h2a : properStartB ds cs = false := by simpa [properStartB] using h2
          have hnea : cs ≠ ds := fun hh => hne (by rw [hh])
          simp only [Bool.not_eq_true] at hcd hdc
          simp [hcd, hdc, ih ds x y h1a h2a hnea]

theorem entryLeb_key (p q : String × List I18nParamValue)
    (hne : p.1 ≠ q.1)
    (h1 : properStartB p.1.data q.1.data = false)
    (h2 : properStartB q.1.data p.1.data = false)
    (hle : entryLeb p q = true) : jsStringLeb p.1 q.1 = true := by
  have hdata : p.1.data ≠ q.1.data := fun hh => hne (String.ext hh)
  have := hle
  unfold entryLeb jsStringLeb at this
  rw [show entryToString p = p.1 ++ ("," ++ String.intercalate ","
        (p.2.map (fun _ => OBJECT_STRING))) by
      unfold entryToString; rw [stringAppend_assoc],
    show entryToString q = q.1 ++ ("," ++ String.intercalate ","
        (q.2.map (fun _ => OBJECT_STRING))) by
      unfold entryToString; rw [stringAppend_assoc]] at this
  simp only [String.data_append] at this
  rw [charsLeb_append_congr p.1.data q.1.data _ _ h1 h2 hdata] at this
  exact this

theorem keys_filterMap_sublist (l : List (String × List I18nParamValue)) :
    List.Sublist ((l.filterMap formatEntry).map Prod.fst) (l.map Prod.fst) := by
  induction l with
  | nil => simp
  | cons e t ih =>
    simp only [List.filterMap_cons, List.map_cons]
    cases hfe : formatParamValues e.2 with
    | none =>
      simp only [formatEntry, hfe, Option.map_none]
      exact List.Sublist.cons _ ih
    | some s =>
      simp only [formatEntry, hfe, Option.map_some]
      exact List.Sublist.cons₂ _ ih

/-- C4 (amended): `formatParams` enumerates entries in ascending order of the
stringified `[key, values]` entries (the JavaScript default sort); whenever no
placeholder key is a proper initial segment of another, that order coincides
with ascending placeholder-key order, so the result keys are sorted; and
formatting is a pure function of the input map, so formatting the same input
twice yields identical output. -/
theorem formatParams_keys_sorted (params : List (String × List I18nParamValue))
    (hnd : (params.map Prod.fst).Nodup)
    (hns : params.Pairwise (fun p q => properStartB p.1.data q.1.data = false ∧
      properStartB q.1.data p.1.data = false)) :
    List.Pairwise (fun a b : String => jsStringLeb a b = true)
      ((formatParams params).map Prod.fst) := by
  rw [formatParams_eq]
  have hperm : List.Perm (sortEntries params) params := sortEntries_perm params
  have hsort : List.Pairwise entryLE (sortEntries params) := sortEntries_sorted params
  have hnd1 : List.Pairwise (fun p q : String × List I18nParamValue => p.1 ≠ q.1) params := by
    rw [List.Nodup, List.pairwise_map] at hnd
    exact hnd
  have hnd2 : List.Pairwise (fun p q : String × List I18nParamValue => p.1 ≠ q.1)
      (sortEntries params) :=
    (hperm.pairwise_iff (fun hxy => hxy.symm)).mpr hnd1
  have hns2 : List.Pairwise (fun p q : String × List I18nParamValue =>
      properStartB p.1.data q.1.data = false ∧ properStartB q.1.data p.1.data = false)
      (sortEntries params) :=
    (hperm.pairwise_iff (fun hxy => ⟨hxy.2, hxy.1⟩)).mpr hns
  have hkeys : List.Pairwise (fun p q : String × List I18nParamValue =>
      jsStringLeb p.1 q.1 = true) (sortEntries params) := by
    have hand := (hsort.and hnd2).and hns2
    exact hand.imp (fun h => entryLeb_key _ _ h.1.2 h.2.1 h.2.2 h.1.1)
  have hmap : List.Pairwise (fun a b : String => jsStringLeb a b = true)
      ((sortEntries params).map Prod.fst) := List.pairwise_map.mpr hkeys
  exact List.Pairwise.sublist (keys_filterMap_sublist (sortEntries params)) hmap

theorem formatParams_keys_sorted_witness :
    List.Pairwise (fun a b : String => jsStringLeb a b = true)
      ((formatParams params4).map Prod.fst) :=
  formatParams_keys_sorted params4 (by decide) (by decide)

theorem needsPost_foldl (l : List (String × List I18nParamValue)) (init : Bool) :
    l.foldl (fun acc entry => if entry.2.length > 1 then true else acc) init
      = (init || l.any (fun entry => decide (entry.2.length > 1))) := by
  induction l generalizing init with
  | nil => simp
  | cons e t ih =>
    rw [List.foldl_cons]
    by_cases h : e.2.length > 1
    · rw [if_pos h, ih true]
      simp [h]
    · rw [if_neg h, ih init]
      simp [h]

/-- C6: after the `formatI18nParams` phase, every root extracted-message op
has its needs-postprocessing flag set exactly when some placeholder of its
normal params map has more than one value, or its postprocessing params map
is non-empty. -/
theorem formatI18nParams_needsPostprocessing (job : ComponentCompilationJob)
    (unit : ViewCompilationUnit) (op : Op) (msg : ExtractedMessageOp)
    (hu : unit ∈ (formatI18nParams job).units)
    (hop : op ∈ unit.create)
    (hmsg : op = Op.extractedMessage msg)
    (hroot : msg.isRoot = true) :
    (msg.needsPostprocessing = true ↔
      ((∃ entry ∈ msg.params, entry.2.length > 1) ∨ msg.postprocessingParams ≠ [])) := by
  subst hmsg
  simp only [formatI18nParams, List.mem_map] at hu
  rcases hu with ⟨u0, hu0, hueq⟩
  rw [← hueq] at hop
  simp only [List.mem_map] at hop
  rcases hop with ⟨op0, hop0, heq⟩
  cases op0 with
  | extractedMessage m0 =>
    simp only [formatI18nParamsOp] at heq
    by_cases hroot0 : m0.isRoot = true
    · rw [if_pos hroot0] at heq
      have hmsg2 := (Op.extractedMessage.injEq _ _).mp heq
      rw [← hmsg2]
      simp only [needsPost_foldl]
      simp [List.any_eq_true, List.length_pos, or_comm]
    · rw [if_neg hroot0] at heq
      have hmsg2 := (Op.extractedMessage.injEq _ _).mp heq
      rw [← hmsg2] at hroot
      exact absurd hroot hroot0
  | statement s => exact absurd heq (by simp [formatI18nParamsOp])
  | element => exact absurd heq (by simp [formatI18nParamsOp])
  | template => exact absurd heq (by simp [formatI18nParamsOp])
  | listener => exact absurd heq (by simp [formatI18nParamsOp])
  | binding => exact absurd heq (by simp [formatI18nParamsOp])
  | pipe => exact absurd heq (by simp [formatI18nParamsOp])
  | conditional => exact absurd heq (by simp [formatI18nParamsOp])
  | repeaterCreate => exact absurd heq (by simp [formatI18nParamsOp])
  | deferOp => exact absurd heq (by simp [formatI18nParamsOp])

theorem formatI18nParams_needsPostprocessing_witness :
    (({ msgW6 with
        formattedParams := some (formatParams msgW6.params),
        formattedPostprocessingParams := some (formatParams msgW6.postprocessingParams),
        needsPostprocessing := true } : ExtractedMessageOp).needsPostprocessing = true ↔
      ((∃ entry ∈ ({ msgW6 with
          formattedParams := some (formatParams msgW6.params),
          formattedPostprocessingParams := some (formatParams msgW6.postprocessingParams),
          needsPostprocessing := true } : ExtractedMessageOp).params, entry.2.length > 1) ∨
        ({ msgW6 with
          formattedParams := some (formatParams msgW6.params),
          formattedPostprocessingParams := some (formatParams msgW6.postprocessingParams),
          needsPostprocessing := true } : ExtractedMessageOp).postprocessingParams ≠ [])) :=
  formatI18nParams_needsPostprocessing jobW6
    ⟨5, some "w", none, [formatI18nParamsOp (Op.extractedMessage msgW6)], []⟩
    (formatI18nParamsOp (Op.extractedMessage msgW6))
    { msgW6 with
      formattedParams := some (formatParams msgW6.params),
      formattedPostprocessingParams := some (formatParams msgW6.postprocessingParams),
      needsPostprocessing := true }
    (List.Mem.head _) (List.Mem.head _) (by rfl) (by rfl)

theorem getMidOfAppend {α : Type} (l1 : List α) (x : α) (l2 : List α) :
    (l1 ++ x :: l2).get? l1.length = some x := by
  induction l1 with
  | nil => rfl
  | cons a t ih => simpa using ih

theorem emitChildrenGo_block
    (recurse : Nat → Option (Except String (List Statement))) (px : Nat) :
    ∀ (wl : List ViewCompilationUnit) (pool : List Statement) (u : ViewCompilationUnit),
    emitChildrenGo recurse px wl = some (.ok pool) → u ∈ wl → u.parent = some px →
    ∃ A sub f B, recurse u.xref = some (.ok sub) ∧ emitView u = .ok f ∧
      pool = A ++ (sub ++ toDeclStmt f :: B) := by
  intro wl
  induction wl with
  | nil => intro pool u h hm hp; cases hm
  | cons v rest ih =>
    intro pool u h hm hp
    rcases List.mem_cons.mp hm with rfl | hmr
    · simp only [emitChildrenGo, if_pos hp] at h
      cases hrec : recurse u.xref with
      | none => rw [hrec] at h; simp at h
      | some r =>
        rw [hrec] at h
        cases r with
        | error e => simp at h
        | ok sub =>
          cases hview : emitView u with
          | error e => rw [hview] at h; simp at h
          | ok f =>
            rw [hview] at h
            cases hrest : emitChildrenGo recurse px rest with
            | none => rw [hrest] at h; simp at h
            | some r2 =>
              rw [hrest] at h
              cases r2 with
              | error e => simp at h
              | ok tail =>
                have hpool : sub ++ toDeclStmt f :: tail = pool := by simpa using h
                exact ⟨[], sub, f, tail, rfl, rfl, by simp [← hpool]⟩
    · by_cases hvp : v.parent = some px
      · simp only [emitChildrenGo, if_pos hvp] at h
        cases hrec : recurse v.xref with
        | none => rw [hrec] at h; simp at h
        | some r =>
          rw [hrec] at h
          cases r with
          | error e => simp at h
          | ok subv =>
            cases hview : emitView v with
            | error e => rw [hview] at h; simp at h
            | ok fv =>
              rw [hview] at h
              cases hrest : emitChildrenGo recurse px rest with
              | none => rw [hrest] at h; simp at h
              | some r2 =>
                rw [hrest] at h
                cases r2 with
                | error e => simp at h
                | ok tail =>
                  have hpool : subv ++ toDeclStmt fv :: tail = pool := by simpa using h
                  obtain ⟨A, sub, f, B, g1, g2, g3⟩ := ih tail u hrest hmr hp
                  refine ⟨subv ++ toDeclStmt fv :: A, sub, f, B, g1, g2, ?_⟩
                  rw [← hpool, g3]
                  simp [List.append_assoc]
      · simp only [emitChildrenGo, if_neg hvp] at h
        exact ih pool u h hmr hp

theorem emitChildViewsFuel_block (units : List ViewCompilationUnit)
    (fuel px : Nat) (pool : List Statement) (u : ViewCompilationUnit)
    (h : emitChildViewsFuel units fuel px = some (.ok pool))
    (hm : u ∈ units) (hp : u.parent = some px) :
    ∃ A sub f B fuel2, emitChildViewsFuel units fuel2 u.xref = some (.ok sub) ∧
      emitView u = .ok f ∧ pool = A ++ (sub ++ toDeclStmt f :: B) := by
  cases fuel with
  | zero =>
    exfalso
    have hany : units.any (fun w => w.parent == some px) = true :=
      List.any_eq_true.mpr ⟨u, hm, by simp [hp]⟩
    simp only [emitChildViewsFuel, if_pos hany] at h
    simp at h
  | succ f =>
    simp only [emitChildViewsFuel] at h
    obtain ⟨A, sub, fn, B, h1, h2, h3⟩ :=
      emitChildrenGo_block (emitChildViewsFuel units f) px units pool u h hm hp
    exact ⟨A, sub, fn, B, f, h1, h2, h3⟩

theorem emitDesc_block (units : List ViewCompilationUnit) (w : ViewCompilationUnit)
    (px : Nat) (hdesc : Desc units w px) :
    ∀ (fuel : Nat) (pool : List Statement),
    emitChildViewsFuel units fuel px = some (.ok pool) →
    ∃ A sub f B, emitView w = .ok f ∧ pool = A ++ (sub ++ toDeclStmt f :: B) ∧
      ∃ fuel2, emitChildViewsFuel units fuel2 w.xref = some (.ok sub) := by
  induction hdesc with
  | child px2 hm hp =>
    intro fuel pool h
    obtain ⟨A, sub, f, B, fuel2, h1, h2, h3⟩ :=
      emitChildViewsFuel_block units fuel px2 pool w h hm hp
    exact ⟨A, sub, f, B, h2, h3, fuel2, h1⟩
  | nest c px2 hcm hcp hdesc2 ih =>
    intro fuel pool h
    obtain ⟨A, subc, fc, B, fuel2, h1, h2, h3⟩ :=
      emitChildViewsFuel_block units fuel px2 pool c h hcm hcp
    obtain ⟨A2, sub, f, B2, g1, g2, g3⟩ := ih fuel2 subc h1
    refine ⟨A ++ A2, sub, f, B2 ++ toDeclStmt fc :: B, g1, ?_, g3⟩
    rw [h3, g2]
    simp [List.append_assoc]

/-- C8: when the template emission completes, every descendant view function
of a unit is pushed into the shared constant pool strictly before that
unit's own function declaration (children are emitted depth-first before
their parent), and the root view's function is the value returned by
`emitTemplateFn`. -/
theorem emitTemplateFn_children_before_parent (tpl : ComponentCompilationJob) (fuel : Nat)
    (rootFn : FunctionExpr) (pool : List Statement) (U V : ViewCompilationUnit)
    (hrun : emitTemplateFn tpl fuel = some (.ok (rootFn, pool)))
    (hU : Desc tpl.units U tpl.root.xref)
    (hV : Desc tpl.units V U.xref) :
    emitView tpl.root = .ok rootFn ∧
    ∃ i j, i < j ∧ pool.get? i = declOf V ∧ pool.get? j = declOf U := by
  cases hview : emitView tpl.root with
  | error e =>
    exfalso
    simp only [emitTemplateFn, hview] at hrun
    simp at hrun
  | ok rf =>
    simp only [emitTemplateFn, hview] at hrun
    cases hcv : emitChildViewsFuel tpl.units fuel tpl.root.xref with
    | none => rw [hcv] at hrun; simp at hrun
    | some r =>
      rw [hcv] at hrun
      cases r with
      | error e => simp at hrun
      | ok pool2 =>
        have hinj : rf = rootFn ∧ pool2 = pool := by simpa using hrun
        obtain ⟨A, subU, fU, B, hfU, hpool, fuel2, hsubU⟩ :=
          emitDesc_block tpl.units U tpl.root.xref hU fuel pool
            (by rw [← hinj.2]; exact hcv)
        obtain ⟨A2, subV, fV, B2, hfV, hsubeq, _⟩ :=
          emitDesc_block tpl.units V U.xref hV fuel2 subU hsubU
        refine ⟨by rw [hinj.1], ?_⟩
        refine ⟨(A ++ A2 ++ subV).length, (A ++ subU).length, ?_, ?_, ?_⟩
        · simp only [hsubeq, List.length_append, List.length_cons]
          omega
        · have hre : pool = (A ++ A2 ++ subV) ++
              (toDeclStmt fV :: (B2 ++ toDeclStmt fU :: B)) := by
            rw [hpool, hsubeq]
            simp [List.append_assoc]
          rw [hre, getMidOfAppend]
          simp [declOf, hfV, Except.toOption]
        · have hre : pool = (A ++ subU) ++ (toDeclStmt fU :: B) := by
            rw [hpool]
            simp [List.append_assoc]
          rw [hre, getMidOfAppend]
          simp [declOf, hfU, Except.toOption]

theorem emitTemplateFn_children_before_parent_witness :
    emitView tplW.root = .ok rootFnW ∧
    ∃ i j, i < j ∧ poolW.get? i = declOf vW ∧ poolW.get? j = declOf uW :=
  emitTemplateFn_children_before_parent tplW 3 rootFnW poolW uW vW rfl
    (Desc.child uW 0 (List.Mem.tail _ (List.Mem.head _)) rfl)
    (Desc.child vW 1 (List.Mem.tail _ (List.Mem.tail _ (List.Mem.head _))) rfl)
